import Mathlib

/-!
Verification of the Smart-Expense-Tracker core (src/Dsbda.py) against its
natural-language specification.

The Python program keeps three SQLite tables: users(username, password),
expenses(username, Date, Category, Description, Amount) and
budgets(username, Category, Budget), none of them with a primary key or a
uniqueness constraint.  Each table is embedded as a Lean list of rows in
insertion order, which is how SQLite stores and scans rows of such tables.
REAL columns are embedded as rationals, TEXT columns as strings.  The SHA-256
digest supplied by the external hashlib library is embedded as an arbitrary
function parameter named sha256: every property proved below holds for every
choice of that function, and determinism of the digest is exactly
function-ness of the parameter.
-/

/-- A row of the expenses table as `get_expenses` returns it: the SELECT
projects the columns Date, Category, Description, Amount (dropping
username). -/
structure Expense where
  Date : String
  Category : String
  Description : String
  Amount : ℚ
deriving DecidableEq

/-- A full row of the expenses table, as `add_expense` inserts it. -/
structure ExpenseRow where
  username : String
  Date : String
  Category : String
  Description : String
  Amount : ℚ
deriving DecidableEq

/-- A row of the budgets table. -/
structure BudgetRow where
  username : String
  Category : String
  Budget : ℚ
deriving DecidableEq

/-- `add_user`: INSERT INTO users(username, password) VALUES (?,?) — appends
one row; the table has no uniqueness constraint, so the insert always
succeeds. -/
def add_user (username password : String) (users : List (String × String)) :
    List (String × String) :=
  users ++ [(username, password)]

/-- `login_user`: SELECT * FROM users WHERE username = ? AND password = ?
followed by fetchone() — the first matching row in storage order, or none. -/
def login_user (username password : String) (users : List (String × String)) :
    Option (String × String) :=
  users.find? (fun r => r.1 == username && r.2 == password)

/-- `hash_password`: hashlib.sha256(password.encode()).hexdigest(), with the
external digest function abstracted as the parameter `sha256`. -/
def hash_password (sha256 : String → String) (password : String) : String :=
  sha256 password

/-- `check_password`: hashed == hashlib.sha256(user_pass.encode()).hexdigest().
Defined in the source but never called by the login flow. -/
def check_password (sha256 : String → String) (hashed user_pass : String) : Bool :=
  hashed == sha256 user_pass

/-- The module-level Login branch: hashed = hash_password(passwd);
result = login_user(user, hashed); truthiness of the fetched row decides the
login. -/
def authenticate (sha256 : String → String) (username password : String)
    (users : List (String × String)) : Bool :=
  (login_user username (hash_password sha256 password) users).isSome

/-- `add_expense`: INSERT INTO expenses VALUES (?,?,?,?,?) — appends one row. -/
def add_expense (username date category desc : String) (amount : ℚ)
    (t : List ExpenseRow) : List ExpenseRow :=
  t ++ [⟨username, date, category, desc, amount⟩]

/-- `get_expenses`: SELECT Date, Category, Description, Amount FROM expenses
WHERE username=? — the rows of the given user, in storage (= insertion)
order, projected to the four data columns. -/
def get_expenses (username : String) (t : List ExpenseRow) : List Expense :=
  (t.filter (fun r => r.username == username)).map
    (fun r => ⟨r.Date, r.Category, r.Description, r.Amount⟩)

/-- `set_budget`: REPLACE INTO budgets(username, Category, Budget)
VALUES (?,?,?).  In SQLite, REPLACE is INSERT OR REPLACE: it deletes a
previous row only when the insert would violate a UNIQUE or PRIMARY KEY
constraint.  `create_budget_table` declares budgets(username TEXT,
Category TEXT, Budget REAL) with no such constraint, so the REPLACE never
finds a conflicting row and behaves as a plain INSERT: it appends. -/
def set_budget (username category : String) (budget : ℚ)
    (t : List BudgetRow) : List BudgetRow :=
  t ++ [⟨username, category, budget⟩]

/-- `get_budgets`: SELECT Category, Budget FROM budgets — every row, across
all users, projected to (Category, Budget). -/
def get_budgets (t : List BudgetRow) : List (String × ℚ) :=
  t.map (fun r => (r.Category, r.Budget))

/-- Replaying a list of `add_expense` calls (each described by the full row it
inserts) against a table. -/
def recordAll (ops : List ExpenseRow) (t : List ExpenseRow) : List ExpenseRow :=
  ops.foldl
    (fun t r => add_expense r.username r.Date r.Category r.Description r.Amount t) t

theorem recordAll_eq_append (ops : List ExpenseRow) (t : List ExpenseRow) :
    recordAll ops t = t ++ ops := by
  induction ops generalizing t with
  | nil => simp [recordAll]
  | cons r rest ih =>
    simp only [recordAll, List.foldl_cons] at *
    rw [ih (add_expense r.username r.Date r.Category r.Description r.Amount t)]
    simp [add_expense]

/-- Claim C3: for every username u, password p and prior users-table state,
registering (add_user with the hashed password) and then logging in
(login_user on the same hashed password) finds a matching row: authentication
succeeds immediately after registration, for every digest function. -/
theorem login_after_register (sha256 : String → String) (u p : String)
    (users : List (String × String)) :
    (login_user u (hash_password sha256 p)
      (add_user u (hash_password sha256 p) users)).isSome = true := by
  rw [login_user, List.find?_isSome]
  exact ⟨(u, sha256 p), by simp [add_user, hash_password], by simp [hash_password]⟩

/-- Claim C8: `authenticate` (the Login branch calling login_user on the
hashed password) returns true exactly when some stored row matches
(username, sha256 password); in particular it is false whenever no row
matches, unknown usernames included, and it is a total Boolean function. -/
theorem authenticate_iff (sha256 : String → String) (u p : String)
    (users : List (String × String)) :
    authenticate sha256 u p users = true ↔
      ∃ r ∈ users, r.1 = u ∧ r.2 = sha256 p := by
  rw [authenticate, login_user, List.find?_isSome]
  simp [hash_password]

/-- Claim C10: the SQL-equality login check and the unused helper
`check_password` are equivalent deciders: login_user on the hashed password
finds a row exactly when some stored row for u passes check_password. -/
theorem login_check_password_equiv (sha256 : String → String) (u p : String)
    (users : List (String × String)) :
    (login_user u (hash_password sha256 p) users).isSome = true ↔
      ∃ r ∈ users, r.1 = u ∧ check_password sha256 r.2 p = true := by
  rw [login_user, List.find?_isSome]
  simp [hash_password, check_password]

/-- Claim C7: starting from an empty expenses table, after any sequence of
`add_expense` calls (for the given user interleaved with any calls for other
users), `get_expenses u` returns exactly the rows recorded for u, in
insertion order, each with the recorded date, category, description and
amount; with zero calls for u it returns the empty list. -/
theorem get_expenses_after_records (u : String) (ops : List ExpenseRow) :
    get_expenses u (recordAll ops []) =
      (ops.filter (fun r => r.username == u)).map
        (fun r => ⟨r.Date, r.Category, r.Description, r.Amount⟩) := by
  rw [recordAll_eq_append]
  simp [get_expenses]

/-- Claim C9: recording an expense for user u leaves `get_expenses v`
unchanged for every other user v — the WHERE username=? filter drops the
appended row. -/
theorem add_expense_frame (u v d cat desc : String) (a : ℚ)
    (t : List ExpenseRow) (huv : u ≠ v) :
    get_expenses v (add_expense u d cat desc a t) = get_expenses v t := by
  simp [get_expenses, add_expense, List.filter_append, huv]

/-- Witness for C9 at a concrete input: adding an expense for alice does not
change bob's (empty) listing. -/
theorem add_expense_frame_witness :
    get_expenses "bob" (add_expense "alice" "2024-01-01" "Food" "coffee" 5 []) =
      get_expenses "bob" [] :=
  add_expense_frame "alice" "bob" "2024-01-01" "Food" "coffee" 5 [] (by decide)

/-- Claim C1 is false of the code: two set_budget calls for the same category
leave two budget rows for that category.  REPLACE INTO degenerates to INSERT
because the budgets table has no UNIQUE or PRIMARY KEY constraint, so nothing
is ever replaced: the upsert-on-category invariant the spec states (one row
per category, last write wins) does not hold. -/
theorem set_budget_no_replace_without_key :
    (set_budget "bob" "Food" 50 (set_budget "alice" "Food" 100 []) =
      [⟨"alice", "Food", 100⟩, ⟨"bob", "Food", 50⟩]) ∧
    ((set_budget "bob" "Food" 50 (set_budget "alice" "Food" 100 [])).filter
      (fun r => r.Category == "Food")).length = 2 := by
  constructor
  · rfl
  · rfl

/-- Per-category spend: the sum of the Amount column over the rows of one
category — the value `df.groupby(Category)[Amount].sum()` assigns to that
category. -/
def sumAmounts (c : String) (df : List Expense) : ℚ :=
  ((df.filter (fun e => e.Category == c)).map (fun e => e.Amount)).sum

theorem sumAmounts_cons (c : String) (e : Expense) (df : List Expense) :
    sumAmounts c (e :: df) =
      (if e.Category = c then e.Amount else 0) + sumAmounts c df := by
  by_cases h : e.Category = c <;> simp [sumAmounts, List.filter_cons, h]

theorem sumAmounts_eq_zero_of_not_mem (c : String) (df : List Expense)
    (h : c ∉ df.map fun e => e.Category) : sumAmounts c df = 0 := by
  induction df with
  | nil => rfl
  | cons e df ih =>
    simp only [List.map_cons, List.mem_cons] at h
    push_neg at h
    rw [sumAmounts_cons, if_neg (fun he => h.1 he.symm), ih h.2, zero_add]

/-- The distinct keys of a groupby, one occurrence each. -/
def dedupKeys : List String → List String
  | [] => []
  | k :: ks => if k ∈ dedupKeys ks then dedupKeys ks else k :: dedupKeys ks

theorem mem_dedupKeys (l : List String) : ∀ a, a ∈ dedupKeys l ↔ a ∈ l := by
  induction l with
  | nil => intro a; simp [dedupKeys]
  | cons k ks ih =>
    intro a
    by_cases hk : k ∈ dedupKeys ks
    · rw [dedupKeys, if_pos hk, List.mem_cons, ih a]
      have hkk := (ih k).mp hk
      constructor
      · exact Or.inr
      · intro h
        rcases h with h | h
        · rw [h]; exact hkk
        · exact h
    · rw [dedupKeys, if_neg hk, List.mem_cons, List.mem_cons, ih a]

theorem nodup_dedupKeys (l : List String) : (dedupKeys l).Nodup := by
  induction l with
  | nil => simp [dedupKeys]
  | cons k ks ih =>
    by_cases hk : k ∈ dedupKeys ks
    · simpa [dedupKeys, hk] using ih
    · simp [dedupKeys, hk, ih]

/-- Lexicographic comparison on the character lists of two strings: the order
pandas sorts groupby keys by. -/
def charListLt : List Char → List Char → Bool
  | [], [] => false
  | [], _ :: _ => true
  | _ :: _, [] => false
  | a :: as, b :: bs => if a < b then true else if a = b then charListLt as bs else false

def strLtB (a b : String) : Bool := charListLt a.data b.data

def insertKey (k : String) : List String → List String
  | [] => [k]
  | a :: as => if strLtB k a then k :: a :: as else a :: insertKey k as

/-- Insertion sort of the groupby keys (pandas sorts group keys ascending). -/
def sortKeys : List String → List String
  | [] => []
  | a :: as => insertKey a (sortKeys as)

theorem insertKey_perm (k : String) (l : List String) :
    (insertKey k l).Perm (k :: l) := by
  induction l with
  | nil => exact List.Perm.refl _
  | cons a as ih =>
    by_cases h : strLtB k a
    · simp [insertKey, h]
    · rw [insertKey, if_neg h]
      exact (ih.cons a).trans (List.Perm.swap k a as)

theorem sortKeys_perm (l : List String) : (sortKeys l).Perm l := by
  induction l with
  | nil => exact List.Perm.refl _
  | cons a as ih => exact (insertKey_perm a (sortKeys as)).trans (ih.cons a)

theorem mem_sortKeys (l : List String) (a : String) : a ∈ sortKeys l ↔ a ∈ l :=
  (sortKeys_perm l).mem_iff

/-- The pie-chart data `df.groupby('Category')['Amount'].sum()`: one row per
distinct category, keys sorted ascending, each paired with its spend total. -/
def category_totals (df : List Expense) : List (String × ℚ) :=
  (sortKeys (dedupKeys (df.map fun e => e.Category))).map
    (fun c => (c, sumAmounts c df))

/-- The condition under which the pie-chart branch warns instead of plotting:
the enclosing early return on an empty frame, or an empty groupby result, or
`category_data.sum() == 0`. -/
def pie_no_data (df : List Expense) : Bool :=
  df.isEmpty || (category_totals df).isEmpty ||
    decide (((category_totals df).map fun p => p.2).sum = 0)

theorem sum_map_ite_zero_of_not_mem (c : String) (a : ℚ) (ks : List String)
    (hc : c ∉ ks) : (ks.map fun k => if c = k then a else 0).sum = 0 := by
  apply List.sum_eq_zero
  intro x hx
  rcases List.mem_map.mp hx with ⟨k, hk, rfl⟩
  rw [if_neg]
  intro h
  rw [h] at hc
  exact hc hk

theorem sum_map_ite_zero (c : String) (a : ℚ) (ks : List String)
    (hnd : ks.Nodup) (hc : c ∈ ks) :
    (ks.map fun k => if c = k then a else 0).sum = a := by
  induction ks with
  | nil => cases hc
  | cons k ks ih =>
    rcases List.nodup_cons.mp hnd with ⟨hnotin, hnd2⟩
    rcases List.mem_cons.mp hc with h | h
    · subst h
      rw [List.map_cons, List.sum_cons, if_pos rfl,
        sum_map_ite_zero_of_not_mem c a ks hnotin, add_zero]
    · have hck : c ≠ k := by
        intro he
        rw [he] at h
        exact hnotin h
      rw [List.map_cons, List.sum_cons, if_neg hck, ih hnd2 h, zero_add]

theorem sum_map_sumAmounts (df : List Expense) :
    ∀ ks : List String, ks.Nodup → (∀ e ∈ df, e.Category ∈ ks) →
      (ks.map fun k => sumAmounts k df).sum = (df.map fun e => e.Amount).sum := by
  induction df with
  | nil =>
    intro ks _ _
    have : ∀ k : String, sumAmounts k ([] : List Expense) = 0 := fun _ => rfl
    simp [this]
  | cons e df ih =>
    intro ks hnd hcov
    simp only [fun k => sumAmounts_cons k e df]
    rw [List.sum_map_add,
      sum_map_ite_zero e.Category e.Amount ks hnd (hcov e (List.mem_cons_self e df)),
      ih ks hnd (fun x hx => hcov x (List.mem_cons_of_mem e hx)),
      List.map_cons, List.sum_cons]

theorem category_totals_sum (df : List Expense) :
    ((category_totals df).map fun p => p.2).sum = (df.map fun e => e.Amount).sum := by
  rw [category_totals, List.map_map]
  have hcomp :
      ((fun p : String × ℚ => p.2) ∘ fun c => (c, sumAmounts c df)) =
        fun c => sumAmounts c df := rfl
  rw [hcomp,
    ((sortKeys_perm (dedupKeys (df.map fun e => e.Category))).map
      (fun c => sumAmounts c df)).sum_eq]
  exact sum_map_sumAmounts df _ (nodup_dedupKeys _)
    (fun e he => (mem_dedupKeys _ _).mpr (List.mem_map.mpr ⟨e, he, rfl⟩))

theorem category_totals_entries (df : List Expense) :
    ∀ p ∈ category_totals df, p.2 = sumAmounts p.1 df := by
  intro p hp
  rcases List.mem_map.mp hp with ⟨k, _, rfl⟩
  rfl

theorem mem_category_totals_keys (df : List Expense) (c : String) :
    (∃ p ∈ category_totals df, p.1 = c) ↔ c ∈ df.map fun e => e.Category := by
  constructor
  · rintro ⟨p, hp, rfl⟩
    rcases List.mem_map.mp hp with ⟨k, hk, rfl⟩
    exact (mem_dedupKeys _ _).mp ((mem_sortKeys _ _).mp hk)
  · intro hc
    refine ⟨(c, sumAmounts c df), ?_, rfl⟩
    exact List.mem_map.mpr
      ⟨c, (mem_sortKeys _ _).mpr ((mem_dedupKeys _ _).mpr hc), rfl⟩

theorem category_totals_ne_nil (e : Expense) (df : List Expense) :
    category_totals (e :: df) ≠ [] := by
  intro h
  have hmem := (mem_category_totals_keys (e :: df) e.Category).mpr (by simp)
  rcases hmem with ⟨p, hp, _⟩
  rw [h] at hp
  exact List.not_mem_nil p hp

theorem pie_no_data_iff (df : List Expense) :
    pie_no_data df = true ↔ df = [] ∨ (df.map fun e => e.Amount).sum = 0 := by
  cases df with
  | nil =>
    constructor
    · intro _
      exact Or.inl rfl
    · intro _
      rfl
  | cons e df2 =>
    rw [pie_no_data]
    simp only [Bool.or_eq_true, List.isEmpty_iff, decide_eq_true_eq,
      category_totals_sum]
    simp [category_totals_ne_nil e df2]

/-- The spec's worked example for category totals. -/
def exC5 : List Expense :=
  [⟨"2024-01-01", "Food", "a", 10⟩, ⟨"2024-01-02", "Food", "b", 5⟩,
   ⟨"2024-01-03", "Transport", "c", 20⟩]

/-- Claim C5: category totals group the rows by category and sum Amount per
category — on the spec's example the totals are Food 15 and Transport 20 —
and the pie-chart branch signals no data exactly when the expense list is
empty or the sum over all categories is zero. -/
theorem category_totals_spec :
    category_totals exC5 = [("Food", 15), ("Transport", 20)] ∧
    (∀ df : List Expense, ∀ p ∈ category_totals df, p.2 = sumAmounts p.1 df) ∧
    (∀ df : List Expense, ∀ c : String,
      (∃ p ∈ category_totals df, p.1 = c) ↔ (c ∈ df.map fun e => e.Category)) ∧
    (∀ df : List Expense,
      pie_no_data df = true ↔ df = [] ∨ (df.map fun e => e.Amount).sum = 0) := by
  refine ⟨?_, category_totals_entries, mem_category_totals_keys, pie_no_data_iff⟩
  simp only [category_totals]
  rw [show sortKeys (dedupKeys (exC5.map fun e => e.Category)) =
    ["Food", "Transport"] from by decide]
  norm_num [sumAmounts, exC5, List.filter]
  rw [show ("Food" == "Transport") = false from by decide,
    show ("Transport" == "Food") = false from by decide]
  norm_num

/-- Value of a float64 cell as pandas/numpy produce it: a finite rational, a
propagated infinity, or NaN.  Dividing finite cells by zero never raises in
pandas; it yields one of the non-finite values. -/
inductive PdFloat where
  | finite : ℚ → PdFloat
  | posInf : PdFloat
  | negInf : PdFloat
  | nan : PdFloat
deriving DecidableEq

/-- IEEE-754 division of two finite float64 cells, as the Series division
`merged[Amount] / merged[Budget]` performs it elementwise. -/
def pdDivQ (a b : ℚ) : PdFloat :=
  if b = 0 then
    (if a = 0 then PdFloat.nan else if 0 < a then PdFloat.posInf else PdFloat.negInf)
  else PdFloat.finite (a / b)

/-- Multiplication of a float64 cell by the literal 100 (`* 100`): finite
values scale, infinities keep their sign, NaN propagates. -/
def pdMul100 : PdFloat → PdFloat
  | PdFloat.finite q => PdFloat.finite (q * 100)
  | PdFloat.posInf => PdFloat.posInf
  | PdFloat.negInf => PdFloat.negInf
  | PdFloat.nan => PdFloat.nan

/-- A row of the merged Budget-vs-Actual frame after fillna(0) and the
Percentage column assignment. -/
structure MRow where
  Category : String
  Amount : ℚ
  Budget : ℚ
  Percentage : PdFloat
deriving DecidableEq

/-- The Amount cell a budget row gets from
`category_totals.merge(budget_df, on=Category, how=right).fillna(0)`: the
spend total of its category when the left frame has that key, else the NaN
that fillna(0) turns into 0. -/
def mergedSpend (df : List Expense) (c : String) : ℚ :=
  ((category_totals df).lookup c).getD 0

/-- The tab3 Budget-vs-Actual computation on (expense frame, budget frame):
a right outer join keeps exactly the budget rows in their order (the left
groupby keys are unique), fillna(0) fills missing spend, and
Percentage = Amount / Budget * 100 columnwise. -/
def budget_utilization (df : List Expense) (budget_df : List (String × ℚ)) :
    List MRow :=
  budget_df.map (fun b =>
    ⟨b.1, mergedSpend df b.1, b.2, pdMul100 (pdDivQ (mergedSpend df b.1) b.2)⟩)

theorem lookup_map_self (g : String → ℚ) (ks : List String) (c : String) :
    (ks.map fun k => (k, g k)).lookup c = if c ∈ ks then some (g c) else none := by
  induction ks with
  | nil => simp
  | cons k ks ih =>
    by_cases h : c = k
    · subst h
      simp [List.lookup]
    · have hck : (c == k) = false := by simp [h]
      simp [List.lookup, hck, h, ih]

theorem mergedSpend_eq (df : List Expense) (c : String) :
    mergedSpend df c = sumAmounts c df := by
  rw [mergedSpend, category_totals, lookup_map_self]
  by_cases h : c ∈ sortKeys (dedupKeys (df.map fun e => e.Category))
  · rw [if_pos h]
    rfl
  · rw [if_neg h]
    have hc : c ∉ df.map fun e => e.Category := fun hc =>
      h ((mem_sortKeys _ _).mpr ((mem_dedupKeys _ _).mpr hc))
    rw [Option.getD_none]
    exact (sumAmounts_eq_zero_of_not_mem c df hc).symm

/-- Claim C4: budget utilization right-outer-joins spend totals onto the
budget rows by category: the result has exactly the budgeted categories (in
budget-row order, so spend without a budget row is dropped), a budgeted
category missing from the expenses gets spend 0, and whenever the budget is
nonzero the Percentage cell is the finite value spend / budget * 100. -/
theorem budget_utilization_right_join (df : List Expense)
    (bd : List (String × ℚ)) (hbd : bd ≠ []) :
    ((budget_utilization df bd).map fun r => r.Category) = (bd.map fun b => b.1) ∧
    budget_utilization df bd ≠ [] ∧
    (∀ r ∈ budget_utilization df bd,
      r.Amount = sumAmounts r.Category df ∧
      ((r.Category ∉ df.map fun e => e.Category) → r.Amount = 0) ∧
      (r.Budget ≠ 0 →
        r.Percentage = PdFloat.finite (r.Amount / r.Budget * 100))) := by
  refine ⟨?_, ?_, ?_⟩
  · rw [budget_utilization, List.map_map]
    rfl
  · intro h
    rcases bd with _ | ⟨b, bd2⟩
    · exact hbd rfl
    · rw [budget_utilization] at h
      simp at h
  · intro r hr
    rcases List.mem_map.mp hr with ⟨b, _, rfl⟩
    refine ⟨mergedSpend_eq df b.1, ?_, ?_⟩
    · intro hnm
      show mergedSpend df b.1 = 0
      rw [mergedSpend_eq df b.1]
      exact sumAmounts_eq_zero_of_not_mem _ _ hnm
    · intro hB
      show pdMul100 (pdDivQ (mergedSpend df b.1) b.2) =
        PdFloat.finite (mergedSpend df b.1 / b.2 * 100)
      rw [pdDivQ, if_neg hB]
      rfl

/-- The spec's worked example for budget utilization. -/
def exDfC4 : List Expense := [⟨"2024-01-10", "Food", "w", 50⟩]

def exBdC4 : List (String × ℚ) := [("Food", 100), ("Transport", 50)]

/-- Witness for C4 at the spec's example: budgets Food 100 and Transport 50
with a single Food expense of 50. -/
theorem budget_utilization_right_join_witness :
    exBdC4 ≠ [] ∧
    (((budget_utilization exDfC4 exBdC4).map fun r => r.Category) =
        (exBdC4.map fun b => b.1) ∧
      budget_utilization exDfC4 exBdC4 ≠ [] ∧
      (∀ r ∈ budget_utilization exDfC4 exBdC4,
        r.Amount = sumAmounts r.Category exDfC4 ∧
        ((r.Category ∉ exDfC4.map fun e => e.Category) → r.Amount = 0) ∧
        (r.Budget ≠ 0 →
          r.Percentage = PdFloat.finite (r.Amount / r.Budget * 100)))) :=
  ⟨by decide, budget_utilization_right_join exDfC4 exBdC4 (by decide)⟩

/-- The zero-budget input for claim C2: one Food expense of 10 against a Food
budget of 0. -/
def exDfC2 : List Expense := [⟨"2024-01-05", "Food", "snack", 10⟩]

def exBdC2 : List (String × ℚ) := [("Food", 0)]

theorem exC2_eval :
    budget_utilization exDfC2 exBdC2 = [⟨"Food", 10, 0, PdFloat.posInf⟩] := by
  have h : mergedSpend exDfC2 "Food" = 10 := by
    rw [mergedSpend_eq]
    norm_num [sumAmounts, exDfC2, List.filter]
  norm_num [budget_utilization, exBdC2, h, pdDivQ, pdMul100]

/-- Claim C2 is false of the code at this input: with budget 0 and spend 10
the Percentage cell is the propagated positive infinity — a numeric
non-finite value, not an explicitly signaled undefined state (the model has
no such signal because the code has none). -/
theorem zero_budget_gives_infinity :
    ((budget_utilization exDfC2 exBdC2).map fun r => r.Percentage) =
      [PdFloat.posInf] := by
  rw [exC2_eval]
  rfl

/-- Claim C2 amended: the utilization computation is a total function (it
never raises), and for a zero-budget row the Percentage cell is the
propagated IEEE value — NaN when the spend is 0, a signed infinity
otherwise — rather than a signaled undefined state. -/
theorem budget_utilization_zero_budget (df : List Expense)
    (bd : List (String × ℚ)) (r : MRow) (hr : r ∈ budget_utilization df bd)
    (hb : r.Budget = 0) :
    r.Percentage = if r.Amount = 0 then PdFloat.nan
      else if 0 < r.Amount then PdFloat.posInf else PdFloat.negInf := by
  rcases List.mem_map.mp hr with ⟨b, _, rfl⟩
  have hb2 : b.2 = 0 := hb
  show pdMul100 (pdDivQ (mergedSpend df b.1) b.2) = _
  rw [hb2, pdDivQ, if_pos rfl]
  by_cases h0 : mergedSpend df b.1 = 0
  · simp [h0, pdMul100]
  · by_cases hpos : 0 < mergedSpend df b.1
    · simp [h0, hpos, pdMul100]
    · simp [h0, hpos, pdMul100]

/-- The merged row the C2 input produces. -/
def exMRowC2 : MRow := ⟨"Food", 10, 0, PdFloat.posInf⟩

/-- Witness for the amended C2 at the concrete zero-budget input. -/
theorem budget_utilization_zero_budget_witness :
    exMRowC2.Percentage = if exMRowC2.Amount = 0 then PdFloat.nan
      else if 0 < exMRowC2.Amount then PdFloat.posInf else PdFloat.negInf :=
  budget_utilization_zero_budget exDfC2 exBdC2 exMRowC2
    (by rw [exC2_eval]; exact List.mem_singleton.mpr rfl) (by decide)

/-- Decimal digits to a natural number, accumulator style; none at the first
non-digit character. -/
def digitsToNatAux : ℕ → List Char → Option ℕ
  | acc, [] => some acc
  | acc, c :: cs =>
    if c.isDigit then digitsToNatAux (10 * acc + (c.toNat - 48)) cs else none

/-- A non-empty all-digit field, or none. -/
def digitsToNat? : List Char → Option ℕ
  | [] => none
  | cs => digitsToNatAux 0 cs

/-- Split a character list at every dash. -/
def splitDashAux : List Char → List Char → List (List Char)
  | [], acc => [acc.reverse]
  | c :: cs, acc =>
    if c = '-' then acc.reverse :: splitDashAux cs [] else splitDashAux cs (c :: acc)

/-- Month bucket index of a calendar month: a strictly monotone encoding of
(year, month) that is independent of the day. -/
def monthIdx (y m : ℕ) : ℕ := y * 12 + (m - 1)

/-- pd.to_datetime on a Y-m-d string as `add_expense` stores them: three
dash-separated decimal fields with the month in 1..12 and the day in 1..31;
the parsed date is identified by its month bucket, the only part monthly
resampling looks at. -/
def parseYM (s : String) : Option ℕ :=
  match splitDashAux s.data [] with
  | [ys, ms, ds] =>
    match digitsToNat? ys, digitsToNat? ms, digitsToNat? ds with
    | some y, some m, some d =>
      if 1 ≤ m ∧ m ≤ 12 ∧ 1 ≤ d ∧ d ≤ 31 then some (monthIdx y m) else none
    | _, _, _ => none
  | _ => none

/-- Sum of the Amount column over the expenses falling in one month bucket. -/
def monthTotal (df : List Expense) (k : ℕ) : ℚ :=
  ((df.filter fun e => parseYM e.Date == some k).map fun e => e.Amount).sum

/-- The consecutive month buckets lo, lo+1, ..., lo+n-1. -/
def monthsFrom : ℕ → ℕ → List ℕ
  | _, 0 => []
  | lo, n + 1 => lo :: monthsFrom (lo + 1) n

/-- The line-chart data `df.resample('M', on='Date')['Amount'].sum()`: one
row per calendar month from the earliest to the latest expense month
inclusive — resampling fills every month in between, at sum 0 when no row
falls in it — in chronological order, each with its monthly Amount sum. -/
def monthly_trend (df : List Expense) : List (ℕ × ℚ) :=
  match df.filterMap (fun e => parseYM e.Date) with
  | [] => []
  | k :: ks =>
    (monthsFrom (ks.foldl Nat.min k)
      (ks.foldl Nat.max k + 1 - ks.foldl Nat.min k)).map
      (fun m => (m, monthTotal df m))

theorem mem_monthsFrom (n : ℕ) : ∀ lo x, x ∈ monthsFrom lo n ↔ lo ≤ x ∧ x < lo + n := by
  induction n with
  | zero =>
    intro lo x
    constructor
    · intro h
      exact absurd h (List.not_mem_nil x)
    · intro h
      exact absurd h (by omega)
  | succ n ih =>
    intro lo x
    rw [show monthsFrom lo (n + 1) = lo :: monthsFrom (lo + 1) n from rfl,
      List.mem_cons, ih (lo + 1) x]
    omega

theorem chain_monthsFrom (n : ℕ) :
    ∀ lo, List.Chain' (fun a b : ℕ => b = a + 1) (monthsFrom lo n) := by
  induction n with
  | zero =>
    intro lo
    exact List.chain'_nil
  | succ n ih =>
    intro lo
    cases n with
    | zero => exact List.chain'_singleton lo
    | succ m =>
      have h2 : monthsFrom (lo + 1) (m + 1) = (lo + 1) :: monthsFrom (lo + 2) m := rfl
      rw [show monthsFrom lo (m + 2) = lo :: monthsFrom (lo + 1) (m + 1) from rfl, h2]
      exact List.chain'_cons.mpr ⟨rfl, h2 ▸ ih (lo + 1)⟩

theorem foldl_min_le (ks : List ℕ) : ∀ a x, x ∈ a :: ks → ks.foldl Nat.min a ≤ x := by
  induction ks with
  | nil =>
    intro a x hx
    rw [List.foldl_nil]
    rw [List.mem_singleton] at hx
    subst hx
    exact Nat.le_refl x
  | cons k ks ih =>
    intro a x hx
    rw [List.foldl_cons]
    rcases List.mem_cons.mp hx with rfl | hx2
    · exact le_trans (ih (Nat.min x k) (Nat.min x k) (List.mem_cons_self _ _))
        (Nat.min_le_left x k)
    · rcases List.mem_cons.mp hx2 with rfl | hx3
      · exact le_trans (ih (Nat.min a x) (Nat.min a x) (List.mem_cons_self _ _))
          (Nat.min_le_right a x)
      · exact ih (Nat.min a k) x (List.mem_cons_of_mem _ hx3)

theorem le_foldl_max (ks : List ℕ) : ∀ a x, x ∈ a :: ks → x ≤ ks.foldl Nat.max a := by
  induction ks with
  | nil =>
    intro a x hx
    rw [List.foldl_nil]
    rw [List.mem_singleton] at hx
    subst hx
    exact Nat.le_refl x
  | cons k ks ih =>
    intro a x hx
    rw [List.foldl_cons]
    rcases List.mem_cons.mp hx with rfl | hx2
    · exact le_trans (Nat.le_max_left x k)
        (ih (Nat.max x k) (Nat.max x k) (List.mem_cons_self _ _))
    · rcases List.mem_cons.mp hx2 with rfl | hx3
      · exact le_trans (Nat.le_max_right a x)
          (ih (Nat.max a x) (Nat.max a x) (List.mem_cons_self _ _))
      · exact ih (Nat.max a k) x (List.mem_cons_of_mem _ hx3)

theorem foldl_min_mem (ks : List ℕ) : ∀ a, ks.foldl Nat.min a ∈ a :: ks := by
  induction ks with
  | nil =>
    intro a
    rw [List.foldl_nil]
    exact List.mem_cons_self _ _
  | cons k ks ih =>
    intro a
    rw [List.foldl_cons]
    have h := ih (Nat.min a k)
    by_cases hak : a ≤ k
    · have he : Nat.min a k = a := min_eq_left hak
      rw [he] at h ⊢
      rcases List.mem_cons.mp h with he2 | hm
      · rw [he2]
        exact List.mem_cons_self _ _
      · exact List.mem_cons_of_mem _ (List.mem_cons_of_mem _ hm)
    · have he : Nat.min a k = k := min_eq_right (Nat.le_of_not_le hak)
      rw [he] at h ⊢
      rcases List.mem_cons.mp h with he2 | hm
      · rw [he2]
        exact List.mem_cons_of_mem _ (List.mem_cons_self _ _)
      · exact List.mem_cons_of_mem _ (List.mem_cons_of_mem _ hm)

theorem foldl_max_mem (ks : List ℕ) : ∀ a, ks.foldl Nat.max a ∈ a :: ks := by
  induction ks with
  | nil =>
    intro a
    rw [List.foldl_nil]
    exact List.mem_cons_self _ _
  | cons k ks ih =>
    intro a
    rw [List.foldl_cons]
    have h := ih (Nat.max a k)
    by_cases hak : a ≤ k
    · have he : Nat.max a k = k := max_eq_right hak
      rw [he] at h ⊢
      rcases List.mem_cons.mp h with he2 | hm
      · rw [he2]
        exact List.mem_cons_of_mem _ (List.mem_cons_self _ _)
      · exact List.mem_cons_of_mem _ (List.mem_cons_of_mem _ hm)
    · have he : Nat.max a k = a := max_eq_left (Nat.le_of_not_le hak)
      rw [he] at h ⊢
      rcases List.mem_cons.mp h with he2 | hm
      · rw [he2]
        exact List.mem_cons_self _ _
      · exact List.mem_cons_of_mem _ (List.mem_cons_of_mem _ hm)

/-- The gap-month input for claim C6: expenses in 2024-01 and 2024-03 and
none in 2024-02. -/
def exDfC6 : List Expense :=
  [⟨"2024-01-05", "Food", "a", 10⟩, ⟨"2024-03-01", "Food", "b", 7⟩]

/-- Claim C6 is false of the code at this input: resampling emits a
zero-valued bucket for the empty month 2024-02 lying between the expense
months, so the trend is not only the year-month buckets of the expenses
themselves. -/
theorem monthly_trend_gap_month :
    monthly_trend exDfC6 =
      [(monthIdx 2024 1, 10), (monthIdx 2024 2, 0), (monthIdx 2024 3, 7)] ∧
    monthly_trend exDfC6 ≠ [(monthIdx 2024 1, 10), (monthIdx 2024 3, 7)] := by
  have h2 : monthly_trend exDfC6 =
      [(24288, monthTotal exDfC6 24288), (24289, monthTotal exDfC6 24289),
       (24290, monthTotal exDfC6 24290)] := rfl
  have ha : monthTotal exDfC6 24288 = 10 := by
    rw [monthTotal, show (exDfC6.filter fun e => parseYM e.Date == some 24288) =
      [⟨"2024-01-05", "Food", "a", 10⟩] from by decide]
    norm_num
  have hb : monthTotal exDfC6 24289 = 0 := by
    rw [monthTotal, show (exDfC6.filter fun e => parseYM e.Date == some 24289) =
      [] from by decide]
    norm_num
  have hc : monthTotal exDfC6 24290 = 7 := by
    rw [monthTotal, show (exDfC6.filter fun e => parseYM e.Date == some 24290) =
      [⟨"2024-03-01", "Food", "b", 7⟩] from by decide]
    norm_num
  rw [h2, ha, hb, hc]
  constructor
  · rfl
  · decide

/-- Claim C6 amended: on a non-empty frame of parseable dates the trend is the
consecutive month buckets from the earliest to the latest expense month (so
empty months in between appear, with sum 0), in chronological order; every
expense's month is a bucket, every bucket value is that month's Amount sum,
and every bucket lies between two expense months. -/
theorem monthly_trend_spec (df : List Expense) (hne : df ≠ [])
    (hp : ∀ e ∈ df, (parseYM e.Date).isSome = true) :
    List.Chain' (fun p q : ℕ × ℚ => q.1 = p.1 + 1) (monthly_trend df) ∧
    (∀ e ∈ df, ∃ p ∈ monthly_trend df, parseYM e.Date = some p.1) ∧
    (∀ p ∈ monthly_trend df,
      p.2 = ((df.filter fun e => parseYM e.Date == some p.1).map fun e => e.Amount).sum) ∧
    (∀ p ∈ monthly_trend df, ∃ e1 ∈ df, ∃ e2 ∈ df,
      ∃ k1 k2 : ℕ, parseYM e1.Date = some k1 ∧ parseYM e2.Date = some k2 ∧
        k1 ≤ p.1 ∧ p.1 ≤ k2) := by
  rcases hms : df.filterMap (fun e => parseYM e.Date) with _ | ⟨k, ks⟩
  · exfalso
    rcases df with _ | ⟨e, df2⟩
    · exact hne rfl
    · have h1 := hp e (List.mem_cons_self e df2)
      have h2 := (List.filterMap_eq_nil_iff.mp hms) e (List.mem_cons_self e df2)
      rw [h2] at h1
      simp at h1
  · have hlohi : ks.foldl Nat.min k ≤ ks.foldl Nat.max k :=
      le_trans (foldl_min_le ks k k (List.mem_cons_self _ _))
        (le_foldl_max ks k k (List.mem_cons_self _ _))
    have htrend : monthly_trend df =
        (monthsFrom (ks.foldl Nat.min k)
          (ks.foldl Nat.max k + 1 - ks.foldl Nat.min k)).map
          (fun m => (m, monthTotal df m)) := by
      simp only [monthly_trend, hms]
    have hlomem : ks.foldl Nat.min k ∈ df.filterMap (fun e => parseYM e.Date) := by
      rw [hms]
      exact foldl_min_mem ks k
    have hhimem : ks.foldl Nat.max k ∈ df.filterMap (fun e => parseYM e.Date) := by
      rw [hms]
      exact foldl_max_mem ks k
    refine ⟨?_, ?_, ?_, ?_⟩
    · rw [htrend]
      exact (List.chain'_map _).mpr (chain_monthsFrom _ _)
    · intro e he
      have hsome := hp e he
      rcases Option.isSome_iff_exists.mp hsome with ⟨k0, hk0⟩
      have hk0mem : k0 ∈ df.filterMap (fun e => parseYM e.Date) :=
        List.mem_filterMap.mpr ⟨e, he, hk0⟩
      rw [hms] at hk0mem
      have h1 := foldl_min_le ks k k0 hk0mem
      have h2 := le_foldl_max ks k k0 hk0mem
      refine ⟨(k0, monthTotal df k0), ?_, hk0⟩
      rw [htrend]
      exact List.mem_map.mpr ⟨k0, (mem_monthsFrom _ _ k0).mpr (by omega), rfl⟩
    · intro p hp2
      rw [htrend] at hp2
      rcases List.mem_map.mp hp2 with ⟨m, _, rfl⟩
      rfl
    · intro p hp2
      rw [htrend] at hp2
      rcases List.mem_map.mp hp2 with ⟨m, hm, rfl⟩
      have hra := (mem_monthsFrom _ _ m).mp hm
      rcases List.mem_filterMap.mp hlomem with ⟨e1, he1, hpe1⟩
      rcases List.mem_filterMap.mp hhimem with ⟨e2, he2, hpe2⟩
      exact ⟨e1, he1, e2, he2, ks.foldl Nat.min k, ks.foldl Nat.max k,
        hpe1, hpe2, by omega, by omega⟩

/-- Witness for the amended C6 at the gap-month input. -/
theorem monthly_trend_spec_witness :
    List.Chain' (fun p q : ℕ × ℚ => q.1 = p.1 + 1) (monthly_trend exDfC6) ∧
    (∀ e ∈ exDfC6, ∃ p ∈ monthly_trend exDfC6, parseYM e.Date = some p.1) ∧
    (∀ p ∈ monthly_trend exDfC6,
      p.2 = ((exDfC6.filter fun e => parseYM e.Date == some p.1).map fun e => e.Amount).sum) ∧
    (∀ p ∈ monthly_trend exDfC6, ∃ e1 ∈ exDfC6, ∃ e2 ∈ exDfC6,
      ∃ k1 k2 : ℕ, parseYM e1.Date = some k1 ∧ parseYM e2.Date = some k2 ∧
        k1 ≤ p.1 ∧ p.1 ≤ k2) :=
  monthly_trend_spec exDfC6 (by decide) (by decide)
